import Mathlib

/-!
Shallow embedding of the venue-recommendation core of src/app.py:
QueryBuilder (create_search_queries), MatchRanker (find_top_matches),
Shortlister (get_top_restaurants), Recommender (generate_venue_recommendation)
and the entry point find_best_restaurants.

External provider calls are modelled as explicit inputs:
  - the embedding provider as a success predicate `embOk : String -> Bool`
    (generate_embedding returns None exactly when it fails) together with an
    abstract similarity oracle `sim : String -> Nat -> Rat` giving the cosine
    similarity of the query text embedding with the venue at a catalog index
    (the numeric value of cosine_similarity is opaque floating point; every
    theorem below quantifies over it);
  - the chat-completion provider of Stage 1 as
    `resp : Option (List String × String)`, `none` meaning the API call or the
    JSON parse raised, and `some (names, reasoning)` meaning the parsed JSON
    object with the get-defaults of the source already applied
    (`selected_restaurants` defaulting to [], `reasoning` to "");
  - the free-text provider of Stage 2 as `Except String String`
    (error detail, or the returned message content);
  - load_csv_data as `Option (List Row)`, `none` meaning it raised and
    returned None, `some df` the loaded dataframe rows.
-/

/-- Characterwise prefix test on Python-style character lists. -/
def isPrefixL : List Char → List Char → Bool
  | [], _ => true
  | _ :: _, [] => false
  | a :: ta, b :: tb => a == b && isPrefixL ta tb

/-- Characterwise contiguous-substring test (Python `in` on str). -/
def isInfixL (xs : List Char) : List Char → Bool
  | [] => isPrefixL xs []
  | y :: t => isPrefixL xs (y :: t) || isInfixL xs t

/-- Python `sub in s` for strings. -/
def strContains (s sub : String) : Bool := isInfixL sub.data s.data

/-- Stable insertion of `x` into a list sorted descending by `key`:
`x` is placed before the first element it is not strictly below, which is the
placement a stable descending sort gives the earliest-seen element. -/
def insertDescBy {α : Type} (key : α → ℚ) (x : α) : List α → List α
  | [] => [x]
  | y :: ys => if key x < key y then y :: insertDescBy key x ys else x :: y :: ys

/-- Stable sort, descending by `key`: the semantics of Python
`list.sort(key=..., reverse=True)` (Timsort is stable, and `reverse=True`
keeps ties in original order). -/
def sortDescBy {α : Type} (key : α → ℚ) : List α → List α
  | [] => []
  | x :: xs => insertDescBy key x (sortDescBy key xs)

/-- Python round-half-to-even of a rational to an integer. -/
def roundHalfEven (x : ℚ) : ℤ :=
  let n := ⌊x⌋
  let frac := x - (n : ℚ)
  if frac < 1/2 then n
  else if 1/2 < frac then n + 1
  else if n % 2 = 0 then n else n + 1

/-- `round(float(score), 4)` from the source, idealized over the rationals. -/
def roundQ4 (x : ℚ) : ℚ := (roundHalfEven (x * 10000) : ℚ) / 10000

/-- The event_details dict of src/app.py. Fields read through
`event_details.get(key, default)` are `Option`s (a missing key and a present
empty value behave differently when the default is nonempty); fields whose
get-default is falsy and that are only read through interpolation or
truthiness are plain values with the empty value standing for a missing key. -/
structure EventDetails where
  event_name : Option String := none
  event_type : Option String := none
  venue_type : Option String := none
  start_date : Option String := none
  end_date : Option String := none
  locations : Option (List String) := none
  venue_budget : Option Nat := none
  attendees : Option Nat := none
  hotel_rooms : Option Nat := none
  meeting_rooms : Option String := none
  food_beverage : Option String := none
  decision_date : Option String := none
  notes : Option String := none
  attendee_origins : Option String := none
  private_preference : Option String := none
  one_day_event : Option Bool := none
  dietary_restrictions : List String := []
  address_proximity : String := ""
  neighborhood_preference : String := ""
  atmosphere : String := ""
  special_requirements : String := ""
  event_time : String := ""
deriving DecidableEq

/-- `', '.join(dietary_list)` (dietary_restrictions is a list in this model,
so the isinstance branch of the source always takes the join). -/
def dietaryText (ed : EventDetails) : String :=
  String.intercalate ", " ed.dietary_restrictions

/-- `event_details.get('private_preference', 'No Preference')`. -/
def privatePref (ed : EventDetails) : String :=
  ed.private_preference.getD "No Preference"

/-- The event_duration string of create_search_queries. -/
def eventDuration (ed : EventDetails) : String :=
  if ed.one_day_event.getD false then "One Day Event"
  else "Multi-day Event (" ++ ed.start_date.getD "" ++ " to " ++ ed.end_date.getD "" ++ ")"

/-- The distance_query accumulator of create_search_queries (truthiness of a
Python string is nonemptiness). -/
def distanceQuery (ed : EventDetails) : String :=
  let d1 := if ed.address_proximity = "" then ""
            else "Must be within ~5 miles of " ++ ed.address_proximity ++ ". "
  let d2 := if ed.neighborhood_preference = "" then ""
            else "Strong preference for the " ++ ed.neighborhood_preference ++ " area. "
  if d1 ++ d2 = "" then "No strict distance constraint specified. " else d1 ++ d2

/-- `', '.join(event_details.get('locations', ['New York']))`. -/
def locationsText (ed : EventDetails) : String :=
  String.intercalate ", " (ed.locations.getD ["New York"])

/-- Python bool interpolation (`{one_day_event}` renders as True/False). -/
def pyBool (b : Bool) : String := if b then "True" else "False"

/-- The "overall" query blob of create_search_queries. -/
def overallQuery (ed : EventDetails) : String :=
  "\n            COMPREHENSIVE VENUE REQUIREMENTS:"
  ++ "\n            - Event Name: " ++ ed.event_name.getD "Corporate Event"
  ++ "\n            - Event Type: " ++ ed.event_type.getD "Meeting"
  ++ "\n            - Venue Category: " ++ ed.venue_type.getD "Any"
  ++ "\n            - Date Range: " ++ ed.start_date.getD "" ++ " to " ++ ed.end_date.getD ""
  ++ "\n            - One Day Event?: " ++ pyBool (ed.one_day_event.getD false)
  ++ "\n            - Locations: " ++ locationsText ed
  ++ "\n            - Distance Query: " ++ (distanceQuery ed).trim
  ++ "\n            - Desired Atmosphere: "
  ++ (if ed.atmosphere = "" then "No specific vibe stated" else ed.atmosphere)
  ++ "\n            - Private vs Semi-Private Preference: " ++ privatePref ed
  ++ "\n            - Exact Attendee Count: " ++ toString (ed.attendees.getD 30)
  ++ "\n            - Venue Budget: $" ++ toString (ed.venue_budget.getD 10000)
  ++ "\n            - Meeting Room Configuration: " ++ ed.meeting_rooms.getD "Conference style"
  ++ "\n            - Food & Beverage Needs: " ++ ed.food_beverage.getD "Basic Catering"
  ++ "\n            - Dietary Restrictions: "
  ++ (if dietaryText ed = "" then "N/A" else dietaryText ed)
  ++ "\n            - Hotel Rooms Needed: " ++ toString (ed.hotel_rooms.getD 0)
  ++ "\n            - Other Special Requirements: "
  ++ (if ed.special_requirements = "" then "None" else ed.special_requirements)
  ++ "\n            - Attendee Origins: " ++ ed.attendee_origins.getD "Mixed/Unknown"
  ++ "\n            - Additional Notes: " ++ ed.notes.getD "N/A"
  ++ "\n            - Decision Date: " ++ ed.decision_date.getD "N/A"
  ++ "\n            - Event Time: " ++ ed.event_time
  ++ "\n            "
  ++ "\n            >>> PRIMARY GOAL: Return only those venues that (1) meet capacity and (2) fall within ~5 miles"
  ++ "\n            of the specified address or neighborhood (if given), while also respecting the budget,"
  ++ "\n            atmosphere/vibe, and other key factors above.\n        "

/-- The "meeting_rooms" query blob. -/
def meetingRoomsQuery (ed : EventDetails) : String :=
  "\n            PRIORITY: Meeting Space & Layout"
  ++ "\n            - MUST accommodate EXACTLY " ++ toString (ed.attendees.getD 30) ++ " attendees."
  ++ "\n            - Required Room Configuration: " ++ ed.meeting_rooms.getD "Multiple breakouts"
  ++ "\n            - Private/Semi-Private Preference: " ++ privatePref ed
  ++ "\n            - Typical A/V Needs (projectors, microphones, etc.)"
  ++ "\n            - Emphasize convenience of location: " ++ (distanceQuery ed).trim
  ++ "\n            - This is the PRIMARY focus of our venue search.\n        "

/-- The "food" query blob. -/
def foodQuery (ed : EventDetails) : String :=
  "\n            PRIORITY: Food & Beverage"
  ++ "\n            - Must be suitable for a " ++ ed.event_type.getD "business" ++ " event"
  ++ "\n            - Specific F&B Requirements: " ++ ed.food_beverage.getD "Basic Catering"
  ++ "\n            - Dietary Restrictions: "
  ++ (if dietaryText ed = "" then "N/A" else dietaryText ed)
  ++ "\n            - Must comfortably serve " ++ toString (ed.attendees.getD 30) ++ " people"
  ++ "\n            - Emphasize quality, variety, and any special dietary needs"
  ++ "\n            - Budget limit is $" ++ toString (ed.venue_budget.getD 10000)
  ++ "\n            - Prefer location: " ++ (distanceQuery ed).trim ++ "\n        "

/-- The "location" query blob. -/
def locationQuery (ed : EventDetails) : String :=
  "\n            PRIORITY: Location & Accessibility"
  ++ "\n            - Primary locations: " ++ locationsText ed
  ++ "\n            - " ++ (distanceQuery ed).trim
  ++ "\n            - Easy transportation access for " ++ toString (ed.attendees.getD 30) ++ " attendees"
  ++ "\n            - "
  ++ (if privatePref ed ≠ "No Preference" then "Private/Semi-Private Space: " ++ privatePref ed else "")
  ++ "\n            - Suitable for " ++ ed.event_type.getD "business" ++ " events"
  ++ "\n            - Close to hotels/accommodations if needed: " ++ toString (ed.hotel_rooms.getD 0) ++ " rooms"
  ++ "\n            - This is a CRITICAL factor in our venue selection.\n        "

/-- The "atmosphere" query blob. -/
def atmosphereQuery (ed : EventDetails) : String :=
  "\n            PRIORITY: Ambiance & Atmosphere"
  ++ "\n            - SPECIFIC ATMOSPHERE DESIRED: "
  ++ (if ed.atmosphere = "" then "Professional yet comfortable" else ed.atmosphere)
  ++ "\n            - Must match the tone of a " ++ ed.event_type.getD "business" ++ " event"
  ++ "\n            - Suitable for " ++ toString (ed.attendees.getD 30) ++ " attendees"
  ++ "\n            - Setting should facilitate " ++ ed.event_type.getD "business" ++ " activities"
  ++ "\n            - "
  ++ (if privatePref ed ≠ "No Preference" then "Private/Semi-Private Space: " ++ privatePref ed else "")
  ++ "\n            - Lighting, acoustics, and overall vibe are important considerations\n        "

/-- The "budget" query blob. -/
def budgetQuery (ed : EventDetails) : String :=
  "\n            PRIORITY: Budget & Cost"
  ++ "\n            - Hard budget ceiling of $" ++ toString (ed.venue_budget.getD 10000)
  ++ "\n            - Venue + F&B must fit within this budget for " ++ toString (ed.attendees.getD 30) ++ " attendees"
  ++ "\n            - Seek all-inclusive or transparent pricing (avoid hidden fees)"
  ++ "\n            - Keep location preference in mind: " ++ (distanceQuery ed).trim
  ++ "\n            - Budget needs to cover:"
  ++ "\n              - Venue rental for " ++ eventDuration ed
  ++ "\n              - Food & beverage: " ++ ed.food_beverage.getD "Basic Catering"
  ++ "\n              - Meeting space: " ++ ed.meeting_rooms.getD "Conference style"
  ++ "\n              - Any technical requirements: "
  ++ (if ed.special_requirements = "" then "Standard A/V" else ed.special_requirements)
  ++ "\n        "

/-- create_search_queries of src/app.py: the queries dict, as an association
list in its insertion order. -/
def create_search_queries (ed : EventDetails) : List (String × String) :=
  [("overall", overallQuery ed),
   ("meeting_rooms", meetingRoomsQuery ed),
   ("food", foodQuery ed),
   ("location", locationQuery ed),
   ("atmosphere", atmosphereQuery ed),
   ("budget", budgetQuery ed)]

/-- One dataframe row of the venue catalog, with the columns find_top_matches
reads. `hasEmbedding` is `row['embedding'] is not None`; `restaurantName` is
`row.get('Restaurant name', row.get('name', ...))` after the
normalization the source applies (the name column is assumed present, the
source's per-row fallbacks are data plumbing outside every claim). -/
structure Row where
  restaurantName : String
  address : String := ""
  neighborhood : String := ""
  cuisine : String := ""
  pricing : String := ""
  ragdata : String := ""
  hasEmbedding : Bool := true
deriving DecidableEq

/-- One element of the `similarities` list: (idx, similarity, row). -/
abbrev SimEntry : Type := Nat × ℚ × Row

/-- The venue name of a similarities element, as the source reads it. -/
def entryName (v : SimEntry) : String := v.2.2.restaurantName

/-- The similarity component of a similarities element. -/
def entryScore (v : SimEntry) : ℚ := v.2.1

/-- The `similarities` list for one criterion, before sorting: every row with
a non-null embedding, in catalog order, scored by the similarity oracle. -/
def buildSimilarities (s : Nat → ℚ) (df : List Row) : List SimEntry :=
  (df.enum.filter (fun p => p.2.hasEmbedding)).map (fun p => (p.1, s p.1, p.2))

/-- Python set add on the list model of a set. -/
def addName (n : String) (s : List String) : List String :=
  if n ∈ s then s else n :: s

/-- The mutable state of the diversity selection loops of find_top_matches:
seen_venues, diverse_matches, all_selected_venues. -/
structure SelState where
  seen : List String
  dm : List SimEntry
  allSel : List String
deriving DecidableEq

/-- One iteration of the first diversity loop of find_top_matches
(src/app.py lines 273 to 287), for element `v` of the sorted similarities.
`sims` is the whole sorted similarities list, which the waiver comprehension
re-scans against the current all_selected_venues. -/
def diversityStep (criterion : String) (num_matches : Nat) (sims : List SimEntry)
    (st : SelState) (v : SimEntry) : SelState :=
  if entryName v ∉ st.seen ∧ st.dm.length < num_matches then
    if criterion ≠ "overall" ∧ entryName v ∈ st.allSel then
      if (sims.filter (fun w => decide (entryName w ∉ st.allSel))).length < num_matches then
        { st with dm := st.dm ++ [v], seen := addName (entryName v) st.seen }
      else st
    else
      { seen := addName (entryName v) st.seen,
        dm := st.dm ++ [v],
        allSel := addName (entryName v) st.allSel }
  else st

/-- One iteration of the fill loop of find_top_matches (lines 291 to 296). -/
def fillStep (num_matches : Nat) (st : SelState) (v : SimEntry) : SelState :=
  if entryName v ∉ st.seen ∧ st.dm.length < num_matches then
    { seen := addName (entryName v) st.seen,
      dm := st.dm ++ [v],
      allSel := addName (entryName v) st.allSel }
  else st

/-- The diversity selection for one criterion (lines 268 to 296): the first
loop over the sorted similarities, then, if the list is still short, the
pure top-score fill. Returns diverse_matches and the updated
all_selected_venues. -/
def processCriterion (criterion : String) (num_matches : Nat) (sims : List SimEntry)
    (allSel : List String) : List SimEntry × List String :=
  let st1 := sims.foldl (diversityStep criterion num_matches sims) ⟨[], [], allSel⟩
  let st2 := if st1.dm.length < num_matches then sims.foldl (fillStep num_matches) st1 else st1
  (st2.dm, st2.allSel)

/-- One output dict of a per-criterion top_matches list (lines 299 to 308). -/
structure MatchEntry where
  id : Nat
  name : String
  score : ℚ
  address : String := ""
  neighborhood : String := ""
  cuisine : String := ""
  pricing : String := ""
  ragdata : String := ""
deriving DecidableEq

/-- The per-match output record of find_top_matches. -/
def mkMatchEntry (v : SimEntry) : MatchEntry :=
  { id := v.1,
    name := v.2.2.restaurantName,
    score := roundQ4 v.2.1,
    address := v.2.2.address,
    neighborhood := v.2.2.neighborhood,
    cuisine := v.2.2.cuisine,
    pricing := v.2.2.pricing,
    ragdata := v.2.2.ragdata }

/-- The criterion loop of find_top_matches (lines 249 to 311), threading
all_selected_venues. When generate_embedding has failed for a query
(`embOk query = false`) and at least one row has an embedding, the call
`cosine_similarity([None], [row['embedding']])` raises; the exception escapes
the loop to the function-level handler, which returns None: modelled by the
whole fold returning `none`. With no embedded row the similarity loop body
never runs and the criterion simply gets an empty list. -/
def ftmGo (embOk : String → Bool) (sim : String → Nat → ℚ) (df : List Row) :
    List (String × String) → List String → Option (List (String × List MatchEntry))
  | [], _ => some []
  | (criterion, query) :: rest, allSel =>
    if embOk query = false ∧ df.any (fun r => r.hasEmbedding) = true then none
    else
      let similarities := sortDescBy entryScore (buildSimilarities (sim query) df)
      let num_matches := if criterion = "overall" then 25 else 5
      let res := processCriterion criterion num_matches similarities allSel
      match ftmGo embOk sim df rest res.2 with
      | none => none
      | some tl => some ((criterion, res.1.map mkMatchEntry) :: tl)

/-- find_top_matches of src/app.py. `none` is the `return None` of the
function-level exception handler. The non-specialized branch ranks by the
"overall" query only and takes the top 25 without the diversity loops. -/
def find_top_matches (embOk : String → Bool) (sim : String → Nat → ℚ) (df : List Row)
    (ed : EventDetails) (use_specialized_criteria : Bool) :
    Option (List (String × List MatchEntry)) :=
  if use_specialized_criteria then
    ftmGo embOk sim df (create_search_queries ed) []
  else
    let overall_query := overallQuery ed
    if embOk overall_query = false ∧ df.any (fun r => r.hasEmbedding) = true then none
    else
      let similarities := sortDescBy entryScore (buildSimilarities (sim overall_query) df)
      some [("overall", (similarities.take 25).map mkMatchEntry)]

/-- The flat `all_venues` pool of get_top_restaurants (lines 362 to 364):
all per-criterion lists, in dict insertion order. -/
def allVenues (top_matches : List (String × List MatchEntry)) : List MatchEntry :=
  (top_matches.map Prod.snd).flatten

/-- One step of the venue_dict construction (lines 367 to 372): a Python dict
as an association list in key insertion order; writing to an existing key
replaces the value in place. -/
def dictInsert (d : List (String × MatchEntry)) (v : MatchEntry) :
    List (String × MatchEntry) :=
  if d.any (fun p => p.1 = v.name) then
    d.map (fun p => if p.1 = v.name ∧ p.2.score < v.score then (p.1, v) else p)
  else d ++ [(v.name, v)]

/-- The venue_dict of get_top_restaurants: name to highest-scoring instance. -/
def buildVenueDict (vs : List MatchEntry) : List (String × MatchEntry) :=
  vs.foldl dictInsert []

/-- `venue_dict.get(restaurant_name)`: first entry with the exact key. -/
def lookupExact (n : String) : List (String × MatchEntry) → Option MatchEntry
  | [] => none
  | p :: rest => if p.1 = n then some p.2 else lookupExact n rest

/-- Case-insensitive two-way substring test of the resolution loop
(line 468): `restaurant_name.lower() in name.lower() or
name.lower() in restaurant_name.lower()`. -/
def nameFuzzyEq (restaurant_name n : String) : Bool :=
  isInfixL (restaurant_name.data.map Char.toLower) (n.data.map Char.toLower)
  || isInfixL (n.data.map Char.toLower) (restaurant_name.data.map Char.toLower)

/-- The partial-match scan of lines 466 to 470: first dict item, in insertion
order, whose key fuzzily matches. -/
def firstFuzzy (restaurant_name : String) : List (String × MatchEntry) → Option MatchEntry
  | [] => none
  | p :: rest => if nameFuzzyEq restaurant_name p.1 then some p.2
                 else firstFuzzy restaurant_name rest

/-- Resolution of one returned name to a pool record (lines 461 to 474):
exact match first, then the substring scan; unresolved names are dropped. -/
def resolveName (restaurant_name : String) (venue_dict : List (String × MatchEntry)) :
    Option MatchEntry :=
  match lookupExact restaurant_name venue_dict with
  | some v => some v
  | none => firstFuzzy restaurant_name venue_dict

/-- The fallback shortlist of names (lines 450 to 456): first 15 unique names
of the pool sorted by score descending. In the source a seen set accompanies
the accumulating name list; the set always equals the set of accumulated
names, so the list alone carries the state. -/
def uniqueNamesUpTo (limit : Nat) (vs : List MatchEntry) : List String :=
  vs.foldl (fun acc v => if v.name ∉ acc ∧ acc.length < limit then acc ++ [v.name] else acc) []

/-- The score-descending top-up loop of lines 477 to 484. -/
def topUp (vs : List MatchEntry) (acc : List MatchEntry) (seen : List String) :
    List MatchEntry :=
  match vs with
  | [] => acc
  | v :: rest =>
    if v.name ∉ seen ∧ acc.length < 15 then topUp rest (acc ++ [v]) (v.name :: seen)
    else topUp rest acc seen

/-- The Stage 1 result dict, restricted to the keys a claim reads
(event_summary and the timing key added by the caller are plumbing no claim
mentions). -/
structure Stage1Result where
  top_restaurants : List MatchEntry
  selection_reasoning : String
deriving DecidableEq

/-- get_top_restaurants of src/app.py (Stage 1). The chat-completion call and
its JSON parse are the input `resp`: `none` when the call or the parse raised
(the inner handler then builds the algorithmic fallback shortlist), otherwise
the parsed selected_restaurants and reasoning with the get-defaults applied.
The event summary and the prompt built from `ed` flow only into the provider
request, which `resp` abstracts. The function-level handler of the source
cannot be reached in this typed model, so the result is always a success
dict. -/
def get_top_restaurants (top_matches : List (String × List MatchEntry))
    (ed : EventDetails) (resp : Option (List String × String)) : Stage1Result :=
  let all_venues := allVenues top_matches
  let venue_dict := buildVenueDict all_venues
  let restaurant_names :=
    match resp with
    | some pr => pr.1
    | none => uniqueNamesUpTo 15 (sortDescBy MatchEntry.score all_venues)
  let selection_reasoning :=
    match resp with
    | some pr => pr.2
    | none => "Selected based on similarity scores (algorithmic fallback)."
  let top0 := (restaurant_names.take 15).filterMap (fun n => resolveName n venue_dict)
  let top_15_venues :=
    if top0.length < 15 then
      topUp (sortDescBy MatchEntry.score all_venues) top0 (top0.map MatchEntry.name)
    else top0
  { top_restaurants := top_15_venues, selection_reasoning := selection_reasoning }

/-- generate_venue_recommendation of src/app.py (Stage 2). The provider call
is the input: `Except.ok content` is the returned message content,
`Except.error e` the str(e) of a raised exception. `ed` flows only into the
prompt, which the provider input abstracts. On failure the source returns the
fixed-format error narrative below instead of raising. -/
def generate_venue_recommendation (venue_data : MatchEntry) (ed : EventDetails)
    (venue_index : Nat) (resp : Except String String) : String :=
  match resp with
  | Except.ok recommendation => recommendation.trim
  | Except.error e =>
      "\n        " ++ "### " ++ toString venue_index ++ ". " ++ venue_data.name
      ++ "\n        \n        *Error: Could not generate detailed recommendation for this venue.*"
      ++ "\n        \n        " ++ "**Error Details:**" ++ " " ++ e ++ "\n        "

/-- The result of find_best_restaurants: either the Stage 1 success dict, or
one of the explicit error dicts `{"error": message}` (which carry no venue
list). The processing_time key added on success is timing plumbing no claim
mentions. -/
inductive PipelineResult where
  | success : Stage1Result → PipelineResult
  | failure : String → PipelineResult
deriving DecidableEq

/-- find_best_restaurants of src/app.py: the two-stage entry point.
load_csv_data is the external catalog load: `none` when it raised internally
and returned None, `some df` the loaded rows (possibly zero of them). -/
def find_best_restaurants (loadResult : Option (List Row)) (embOk : String → Bool)
    (sim : String → Nat → ℚ) (resp : Option (List String × String))
    (ed : EventDetails) (use_specialized_criteria : Bool) : PipelineResult :=
  match loadResult with
  | none => PipelineResult.failure "Failed to load restaurant data."
  | some df =>
    match find_top_matches embOk sim df ed use_specialized_criteria with
    | none => PipelineResult.failure "Failed to find top matches."
    | some top_matches => PipelineResult.success (get_top_restaurants top_matches ed resp)

/-- Modelled from the spec words, for the refinement comparison of the
diversity waiver rule (spec 4.2 step 4): identical to `diversityStep` except
the waiver test, which here reads "excluding it would leave fewer unique
remaining candidates than slots still open for this label": the count is of
distinct venue names still available (not excluded by the cross-label set),
compared against the unfilled slots of this label. -/
def diversityStepSpec (criterion : String) (num_matches : Nat) (sims : List SimEntry)
    (st : SelState) (v : SimEntry) : SelState :=
  if entryName v ∉ st.seen ∧ st.dm.length < num_matches then
    if criterion ≠ "overall" ∧ entryName v ∈ st.allSel then
      if (((sims.filter (fun w => decide (entryName w ∉ st.allSel))).map entryName).dedup).length
          < num_matches - st.dm.length then
        { st with dm := st.dm ++ [v], seen := addName (entryName v) st.seen }
      else st
    else
      { seen := addName (entryName v) st.seen,
        dm := st.dm ++ [v],
        allSel := addName (entryName v) st.allSel }
  else st

/-- Modelled from the spec words: `processCriterion` with the spec reading of
the waiver rule substituted, everything else unchanged. -/
def processCriterionSpec (criterion : String) (num_matches : Nat) (sims : List SimEntry)
    (allSel : List String) : List SimEntry × List String :=
  let st1 := sims.foldl (diversityStepSpec criterion num_matches sims) ⟨[], [], allSel⟩
  let st2 := if st1.dm.length < num_matches then sims.foldl (fillStep num_matches) st1 else st1
  (st2.dm, st2.allSel)

/-- An event description leaving every optional field missing. -/
def edEmpty : EventDetails := {}

/-- A catalog row with the given name, an embedding present, other columns
empty. -/
def mkRow (n : String) : Row := { restaurantName := n }

/-- A pool record with the given id, name and score, used as concrete input. -/
def mkPoolEntry (i : Nat) (n : String) (q : ℚ) : MatchEntry := { id := i, name := n, score := q }

/-- A one-venue catalog whose single row has an embedding. -/
def dfOne : List Row := [mkRow "A"]

/-- A two-venue catalog, both rows embedded. -/
def dfTwo : List Row := [mkRow "A", mkRow "B"]

/-- Sorted similarities for a non-overall label: X on top, then the
previously selected A, then four fresh venues B C D E. -/
def simsC3 : List SimEntry :=
  [(0, 6, mkRow "X"), (1, 5, mkRow "A"), (2, 4, mkRow "B"),
   (3, 3, mkRow "C"), (4, 2, mkRow "D"), (5, 1, mkRow "E")]

/-- The loop state at the moment the previously selected venue A is
considered in `simsC3`: X has just been taken, the cross-label set holds A
(from a prior label) and X. -/
def stC3 : SelState := ⟨["X"], [(0, 6, mkRow "X")], ["X", "A"]⟩

/-- The similarities element carrying the previously selected venue A. -/
def eA : SimEntry := (1, 5, mkRow "A")

/-- A pool of 15 distinct venue names under a single label. -/
def tm15 : List (String × List MatchEntry) :=
  [("overall",
    [mkPoolEntry 0 "a" 0, mkPoolEntry 1 "b" 0, mkPoolEntry 2 "c" 0,
     mkPoolEntry 3 "d" 0, mkPoolEntry 4 "e" 0, mkPoolEntry 5 "f" 0,
     mkPoolEntry 6 "g" 0, mkPoolEntry 7 "h" 0, mkPoolEntry 8 "i" 0,
     mkPoolEntry 9 "j" 0, mkPoolEntry 10 "k" 0, mkPoolEntry 11 "l" 0,
     mkPoolEntry 12 "m" 0, mkPoolEntry 13 "n" 0, mkPoolEntry 14 "o" 0])]

/-! General lemmas about the string and sorting primitives. -/

theorem strData_append (s t : String) : (s ++ t).data = s.data ++ t.data := rfl

theorem isPrefixL_self_append (xs zs : List Char) : isPrefixL xs (xs ++ zs) = true := by
  induction xs with
  | nil => rfl
  | cons a ta ih => simp [isPrefixL, ih]

theorem isPrefixL_peel (a b c : List Char) :
    isPrefixL (a ++ b) (a ++ c) = isPrefixL b c := by
  induction a with
  | nil => rfl
  | cons x t ih => simp [isPrefixL, ih]

theorem isPrefixL_append_right {xs ys : List Char} (zs : List Char)
    (h : isPrefixL xs ys = true) : isPrefixL xs (ys ++ zs) = true := by
  induction xs generalizing ys with
  | nil => rfl
  | cons a ta ih =>
    cases ys with
    | nil => simp [isPrefixL] at h
    | cons b tb =>
      simp only [isPrefixL, Bool.and_eq_true] at h ⊢
      exact ⟨h.1, ih h.2⟩

theorem isInfixL_of_isPrefixL {xs ys : List Char} (h : isPrefixL xs ys = true) :
    isInfixL xs ys = true := by
  cases ys with
  | nil => simpa [isInfixL] using h
  | cons y t => simp [isInfixL, h]

theorem isInfixL_append_left {xs l : List Char} (ys : List Char)
    (h : isInfixL xs l = true) : isInfixL xs (ys ++ l) = true := by
  induction ys with
  | nil => simpa using h
  | cons y t ih =>
    simp only [List.cons_append, isInfixL, Bool.or_eq_true]
    exact Or.inr ih

theorem isInfixL_append_right {xs ys : List Char} (zs : List Char)
    (h : isInfixL xs ys = true) : isInfixL xs (ys ++ zs) = true := by
  induction ys with
  | nil =>
    cases xs with
    | nil => exact isInfixL_of_isPrefixL (isPrefixL_self_append [] zs)
    | cons a ta => simp [isInfixL, isPrefixL] at h
  | cons y t ih =>
    simp only [isInfixL, Bool.or_eq_true] at h
    rcases h with h | h
    · exact isInfixL_of_isPrefixL (isPrefixL_append_right zs h)
    · simp only [List.cons_append, isInfixL, Bool.or_eq_true]
      exact Or.inr (ih h)

theorem mem_insertDescBy {α : Type} (key : α → ℚ) (x : α) (l : List α) (z : α) :
    z ∈ insertDescBy key x l ↔ z = x ∨ z ∈ l := by
  induction l with
  | nil => simp [insertDescBy]
  | cons y ys ih =>
    by_cases h : key x < key y
    · simp only [insertDescBy, if_pos h, List.mem_cons, ih]
      tauto
    · simp only [insertDescBy, if_neg h, List.mem_cons]

theorem perm_insertDescBy {α : Type} (key : α → ℚ) (x : α) (l : List α) :
    List.Perm (insertDescBy key x l) (x :: l) := by
  induction l with
  | nil => rfl
  | cons y ys ih =>
    by_cases h : key x < key y
    · simp only [insertDescBy, if_pos h]
      exact (ih.cons y).trans (List.Perm.swap x y ys)
    · simp [insertDescBy, if_neg h]

theorem perm_sortDescBy {α : Type} (key : α → ℚ) (l : List α) :
    List.Perm (sortDescBy key l) l := by
  induction l with
  | nil => rfl
  | cons x xs ih => exact (perm_insertDescBy key x (sortDescBy key xs)).trans (ih.cons x)

theorem pairwise_insertDescBy {α : Type} (key : α → ℚ) (x : α) {l : List α}
    (h : l.Pairwise (fun a b => key b ≤ key a)) :
    (insertDescBy key x l).Pairwise (fun a b => key b ≤ key a) := by
  induction l with
  | nil => simp [insertDescBy]
  | cons y ys ih =>
    rcases List.pairwise_cons.mp h with ⟨hy, hys⟩
    by_cases hlt : key x < key y
    · simp only [insertDescBy, if_pos hlt]
      refine List.pairwise_cons.mpr ⟨?_, ih hys⟩
      intro z hz
      rcases (mem_insertDescBy key x ys z).mp hz with rfl | hz
      · exact le_of_lt hlt
      · exact hy z hz
    · simp only [insertDescBy, if_neg hlt]
      refine List.pairwise_cons.mpr ⟨?_, h⟩
      intro z hz
      rcases List.mem_cons.mp hz with rfl | hz
      · exact le_of_not_lt hlt
      · exact le_trans (hy z hz) (le_of_not_lt hlt)

theorem pairwise_sortDescBy {α : Type} (key : α → ℚ) (l : List α) :
    (sortDescBy key l).Pairwise (fun a b => key b ≤ key a) := by
  induction l with
  | nil => simp [sortDescBy]
  | cons x xs ih => exact pairwise_insertDescBy key x ih

theorem filter_insertDescBy {α : Type} (key : α → ℚ) (x : α) (l : List α) (s : ℚ) :
    (insertDescBy key x l).filter (fun e => key e == s)
      = if key x == s then x :: l.filter (fun e => key e == s)
        else l.filter (fun e => key e == s) := by
  induction l with
  | nil => by_cases hxs : key x = s <;> simp [insertDescBy, List.filter_cons, hxs]
  | cons y ys ih =>
    by_cases hlt : key x < key y
    · simp only [insertDescBy, if_pos hlt]
      by_cases hxs : key x = s
      · have hys : ¬ (key y = s) := by
          intro hy
          rw [hxs, hy] at hlt
          exact lt_irrefl s hlt
        simp [List.filter_cons, hxs, hys, ih]
      · by_cases hy : key y = s
        · simp [List.filter_cons, hxs, hy, ih]
        · simp [List.filter_cons, hxs, hy, ih]
    · simp only [insertDescBy, if_neg hlt]
      by_cases hxs : key x = s
      · simp [List.filter_cons, hxs]
      · simp [List.filter_cons, hxs]

theorem filter_sortDescBy {α : Type} (key : α → ℚ) (l : List α) (s : ℚ) :
    (sortDescBy key l).filter (fun e => key e == s) = l.filter (fun e => key e == s) := by
  induction l with
  | nil => rfl
  | cons x xs ih =>
    by_cases hxs : key x = s
    · simp [sortDescBy, filter_insertDescBy, hxs, ih, List.filter_cons]
    · simp [sortDescBy, filter_insertDescBy, hxs, ih, List.filter_cons]

theorem le_fst_of_mem_enumFrom {α : Type} {p : Nat × α} :
    ∀ {n : Nat} {l : List α}, p ∈ List.enumFrom n l → n ≤ p.1 := by
  intro n l
  induction l generalizing n with
  | nil => intro h; simp [List.enumFrom] at h
  | cons x xs ih =>
    intro h
    simp only [List.enumFrom, List.mem_cons] at h
    rcases h with rfl | h
    · exact le_refl n
    · exact le_trans (Nat.le_succ n) (ih h)

theorem pairwise_fst_lt_enumFrom {α : Type} (n : Nat) (l : List α) :
    (List.enumFrom n l).Pairwise (fun a b => a.1 < b.1) := by
  induction l generalizing n with
  | nil => simp [List.enumFrom]
  | cons x xs ih =>
    simp only [List.enumFrom]
    refine List.pairwise_cons.mpr ⟨?_, ih (n + 1)⟩
    intro z hz
    exact lt_of_lt_of_le (Nat.lt_succ_self n) (le_fst_of_mem_enumFrom hz)

theorem pairwise_fst_lt_buildSimilarities (s : Nat → ℚ) (df : List Row) :
    (buildSimilarities s df).Pairwise (fun a b => a.1 < b.1) := by
  unfold buildSimilarities
  rw [List.pairwise_map]
  exact (pairwise_fst_lt_enumFrom 0 df).filter _

/-- C7: for each label, the similarities list of find_top_matches is sorted
descending by score, and the sort is stable with respect to catalog order:
extracting the venues of any one score value from the sorted list gives
exactly the equal-score venues in their pre-sort order, which lists venues
by strictly increasing catalog index. -/
theorem C7_sort_descending_stable (s : Nat → ℚ) (df : List Row) :
    (sortDescBy entryScore (buildSimilarities s df)).Pairwise
        (fun a b => entryScore b ≤ entryScore a) ∧
    (∀ q : ℚ, (sortDescBy entryScore (buildSimilarities s df)).filter
          (fun e => entryScore e == q)
        = (buildSimilarities s df).filter (fun e => entryScore e == q)) ∧
    (buildSimilarities s df).Pairwise (fun a b => a.1 < b.1) :=
  ⟨pairwise_sortDescBy entryScore _,
   fun q => filter_sortDescBy entryScore _ q,
   pairwise_fst_lt_buildSimilarities s df⟩

/-- C8: for every venue record with a name and every position, a failed
provider call makes the Recommender return (not raise) the fixed-format
error narrative: it contains the heading with the display position and the
display name, the name and the rendered position separately, the Error
Details marker, and the error detail. -/
theorem C8_error_narrative_format (venue_data : MatchEntry) (ed : EventDetails)
    (venue_index : Nat) (e : String) :
    strContains (generate_venue_recommendation venue_data ed venue_index (Except.error e))
        ("### " ++ toString venue_index ++ ". " ++ venue_data.name) = true ∧
    strContains (generate_venue_recommendation venue_data ed venue_index (Except.error e))
        venue_data.name = true ∧
    strContains (generate_venue_recommendation venue_data ed venue_index (Except.error e))
        (toString venue_index) = true ∧
    strContains (generate_venue_recommendation venue_data ed venue_index (Except.error e))
        "**Error Details:**" = true ∧
    strContains (generate_venue_recommendation venue_data ed venue_index (Except.error e))
        e = true := by
  unfold generate_venue_recommendation strContains
  simp only [strData_append, List.append_assoc]
  refine ⟨?_, ?_, ?_, ?_, ?_⟩ <;>
    repeat (first
      | exact isInfixL_of_isPrefixL (isPrefixL_self_append _ _)
      | exact isInfixL_of_isPrefixL (by
          simp only [isPrefixL_peel]
          exact isPrefixL_self_append _ _)
      | apply isInfixL_append_left)

/-- C9: the QueryBuilder is deterministic and total: it is a pure function,
so two calls on the same EventDescription give equal (byte-identical) blobs,
it always yields exactly the six fixed labels in their fixed order without
failing, and missing optional fields render as the fixed placeholder strings
of the source. -/
theorem C9_query_builder_deterministic (ed : EventDetails) :
    create_search_queries ed = create_search_queries ed ∧
    (create_search_queries ed).map Prod.fst
      = ["overall", "meeting_rooms", "food", "location", "atmosphere", "budget"] ∧
    (ed.atmosphere = "" →
      strContains (overallQuery ed) "No specific vibe stated" = true) ∧
    (ed.atmosphere = "" →
      strContains (atmosphereQuery ed) "Professional yet comfortable" = true) ∧
    (ed.dietary_restrictions = [] →
      strContains (overallQuery ed) "N/A" = true) ∧
    (ed.special_requirements = "" →
      strContains (budgetQuery ed) "Standard A/V" = true) := by
  refine ⟨rfl, rfl, ?_, ?_, ?_, ?_⟩
  · intro h
    simp only [strContains, overallQuery, h, eq_self_iff_true, reduceIte,
      strData_append, List.append_assoc]
    repeat (first
      | exact isInfixL_of_isPrefixL (isPrefixL_self_append _ _)
      | apply isInfixL_append_left)
  · intro h
    simp only [strContains, atmosphereQuery, h, eq_self_iff_true, reduceIte,
      strData_append, List.append_assoc]
    repeat (first
      | exact isInfixL_of_isPrefixL (isPrefixL_self_append _ _)
      | apply isInfixL_append_left)
  · intro h
    have hd : dietaryText ed = "" := by rw [dietaryText, h]; rfl
    simp only [strContains, overallQuery, hd, eq_self_iff_true, reduceIte,
      strData_append, List.append_assoc]
    repeat (first
      | exact isInfixL_of_isPrefixL (isPrefixL_self_append _ _)
      | apply isInfixL_append_left)
  · intro h
    simp only [strContains, budgetQuery, h, eq_self_iff_true, reduceIte,
      strData_append, List.append_assoc]
    repeat (first
      | exact isInfixL_of_isPrefixL (isPrefixL_self_append _ _)
      | apply isInfixL_append_left)

/-- C9 witness: at the all-defaults event description the hypotheses of the
placeholder clauses hold, and the theorem yields the placeholder rendering. -/
theorem C9_witness :
    strContains (overallQuery edEmpty) "No specific vibe stated" = true :=
  (C9_query_builder_deterministic edEmpty).2.2.1 rfl

theorem mem_addName_self (n : String) (s : List String) : n ∈ addName n s := by
  unfold addName; by_cases h : n ∈ s <;> simp [h]

theorem mem_addName_of_mem {n : String} {s : List String} (m : String) (h : n ∈ s) :
    n ∈ addName m s := by
  unfold addName; by_cases hm : m ∈ s <;> simp [hm, h]

theorem allSel_mem_diversityStep (criterion : String) (num : Nat) (sims : List SimEntry)
    (st : SelState) (v : SimEntry) {n : String} (h : n ∈ st.allSel) :
    n ∈ (diversityStep criterion num sims st v).allSel := by
  unfold diversityStep
  split_ifs with h1 h2 h3
  · exact h
  · exact h
  · exact mem_addName_of_mem _ h
  · exact h

theorem dmInv_diversityStep (criterion : String) (num : Nat) (sims : List SimEntry)
    (st : SelState) (v : SimEntry)
    (h : ∀ w ∈ st.dm, entryName w ∈ st.allSel) :
    ∀ w ∈ (diversityStep criterion num sims st v).dm,
      entryName w ∈ (diversityStep criterion num sims st v).allSel := by
  unfold diversityStep
  split_ifs with h1 h2 h3
  · intro w hw
    rcases List.mem_append.mp hw with hw | hw
    · exact h w hw
    · rcases List.mem_singleton.mp hw with rfl
      exact h2.2
  · exact h
  · intro w hw
    rcases List.mem_append.mp hw with hw | hw
    · exact mem_addName_of_mem _ (h w hw)
    · rcases List.mem_singleton.mp hw with rfl
      exact mem_addName_self _ _
  · exact h

theorem dmInv_fillStep (num : Nat) (st : SelState) (v : SimEntry)
    (h : ∀ w ∈ st.dm, entryName w ∈ st.allSel) :
    ∀ w ∈ (fillStep num st v).dm, entryName w ∈ (fillStep num st v).allSel := by
  unfold fillStep
  split_ifs with h1
  · intro w hw
    rcases List.mem_append.mp hw with hw | hw
    · exact mem_addName_of_mem _ (h w hw)
    · rcases List.mem_singleton.mp hw with rfl
      exact mem_addName_self _ _
  · exact h

theorem foldl_preserve {σ τ : Type} (P : σ → Prop) (f : σ → τ → σ)
    (hf : ∀ s t, P s → P (f s t)) :
    ∀ (l : List τ) (s : σ), P s → P (l.foldl f s) := by
  intro l
  induction l with
  | nil => intro s h; exact h
  | cons x xs ih => intro s h; exact ih (f s x) (hf s x h)

theorem overall_step_indep (num : Nat) (sims : List SimEntry) (st st' : SelState)
    (v : SimEntry) (hseen : st.seen = st'.seen) (hdm : st.dm = st'.dm) :
    (diversityStep "overall" num sims st v).seen
        = (diversityStep "overall" num sims st' v).seen ∧
    (diversityStep "overall" num sims st v).dm
        = (diversityStep "overall" num sims st' v).dm := by
  have hno : ¬ (("overall" : String) ≠ "overall" ∧ entryName v ∈ st.allSel) := by simp
  have hno' : ¬ (("overall" : String) ≠ "overall" ∧ entryName v ∈ st'.allSel) := by simp
  unfold diversityStep
  rw [hseen, hdm]
  by_cases h1 : entryName v ∉ st'.seen ∧ st'.dm.length < num
  · rw [if_pos h1, if_pos h1, if_neg hno, if_neg hno']
    exact ⟨rfl, rfl⟩
  · rw [if_neg h1, if_neg h1]
    exact ⟨hseen, hdm⟩

theorem overall_fold_indep (num : Nat) (sims : List SimEntry) :
    ∀ (l : List SimEntry) (st st' : SelState),
      st.seen = st'.seen → st.dm = st'.dm →
      (l.foldl (diversityStep "overall" num sims) st).seen
        = (l.foldl (diversityStep "overall" num sims) st').seen ∧
      (l.foldl (diversityStep "overall" num sims) st).dm
        = (l.foldl (diversityStep "overall" num sims) st').dm := by
  intro l
  induction l with
  | nil => intro st st' h1 h2; exact ⟨h1, h2⟩
  | cons x xs ih =>
    intro st st' h1 h2
    obtain ⟨g1, g2⟩ := overall_step_indep num sims st st' x h1 h2
    exact ih _ _ g1 g2

theorem fill_step_indep (num : Nat) (st st' : SelState) (v : SimEntry)
    (hseen : st.seen = st'.seen) (hdm : st.dm = st'.dm) :
    (fillStep num st v).seen = (fillStep num st' v).seen ∧
    (fillStep num st v).dm = (fillStep num st' v).dm := by
  unfold fillStep
  rw [hseen, hdm]
  by_cases h1 : entryName v ∉ st'.seen ∧ st'.dm.length < num
  · rw [if_pos h1, if_pos h1]
    exact ⟨rfl, rfl⟩
  · rw [if_neg h1, if_neg h1]
    exact ⟨hseen, hdm⟩

theorem fill_fold_indep (num : Nat) :
    ∀ (l : List SimEntry) (st st' : SelState),
      st.seen = st'.seen → st.dm = st'.dm →
      (l.foldl (fillStep num) st).seen = (l.foldl (fillStep num) st').seen ∧
      (l.foldl (fillStep num) st).dm = (l.foldl (fillStep num) st').dm := by
  intro l
  induction l with
  | nil => intro st st' h1 h2; exact ⟨h1, h2⟩
  | cons x xs ih =>
    intro st st' h1 h2
    obtain ⟨g1, g2⟩ := fill_step_indep num st st' x h1 h2
    exact ih _ _ g1 g2

/-- C2 counterexample: a catalog with a single venue A, processed under the
"overall" label with an empty cross-label set: A is selected for "overall"
AND is recorded in the cross-label already-selected set, contradicting the
claim that names selected while processing "overall" are never added to it
(src/app.py line 287 adds the name unconditionally in the else branch). -/
theorem C2_counterexample :
    (processCriterion "overall" 25 [(0, (1 : ℚ), mkRow "A")] []).1.map entryName = ["A"] ∧
    (processCriterion "overall" 25 [(0, (1 : ℚ), mkRow "A")] []).2 = ["A"] := by
  decide

/-- C2 amended: every venue name in any label's diverse_matches, the
"overall" label included, is in the cross-label already-selected set after
the label is processed; the "overall" label's own selection is never
constrained by the incoming set (its result is the same whatever that set
holds). -/
theorem C2_amended (criterion : String) (num : Nat) (sims : List SimEntry)
    (allSel : List String) :
    (∀ v ∈ (processCriterion criterion num sims allSel).1,
        entryName v ∈ (processCriterion criterion num sims allSel).2) ∧
    (∀ s s' : List String,
        (processCriterion "overall" num sims s).1
          = (processCriterion "overall" num sims s').1) := by
  constructor
  · simp only [processCriterion]
    have h1 : ∀ w ∈ (sims.foldl (diversityStep criterion num sims) ⟨[], [], allSel⟩).dm,
        entryName w ∈ (sims.foldl (diversityStep criterion num sims) ⟨[], [], allSel⟩).allSel := by
      refine foldl_preserve
        (fun st => ∀ w ∈ st.dm, entryName w ∈ st.allSel)
        (diversityStep criterion num sims)
        (fun st v h => dmInv_diversityStep criterion num sims st v h)
        sims ⟨[], [], allSel⟩ ?_
      intro w hw
      simp at hw
    split_ifs with hfill
    · exact foldl_preserve (fun st => ∀ w ∈ st.dm, entryName w ∈ st.allSel)
        (fillStep num) (fun st v h => dmInv_fillStep num st v h) sims _ h1
    · exact h1
  · intro s s'
    simp only [processCriterion]
    obtain ⟨g1, g2⟩ := overall_fold_indep num sims sims ⟨[], [], s⟩ ⟨[], [], s'⟩ rfl rfl
    rw [g2]
    split_ifs with hf
    · exact (fill_fold_indep num sims _ _ g1 g2).2
    · exact g2

/-- C2 witness: at a concrete non-overall run, a selected venue name is in
the returned cross-label set. -/
theorem C2_witness :
    entryName (0, (6 : ℚ), mkRow "X") ∈ (processCriterion "meeting_rooms" 5 simsC3 ["A"]).2 :=
  (C2_amended "meeting_rooms" 5 simsC3 ["A"]).1 (0, (6 : ℚ), mkRow "X") (by decide)

/-- C3 counterexample: label "meeting_rooms" (5 slots), sorted similarities
X A B C D E with A already selected by a prior label. When A is reached,
one slot is filled, four are open, and excluding A leaves exactly four
unique candidates (B C D E), so the claim as stated keeps the exclusion and
yields X B C D E; the source instead waives the exclusion because the four
non-excluded entries are fewer than the label's total slot count 5, and
yields X A B C D. -/
theorem C3_counterexample :
    (processCriterion "meeting_rooms" 5 simsC3 ["A"]).1.map entryName
        = ["X", "A", "B", "C", "D"] ∧
    (processCriterionSpec "meeting_rooms" 5 simsC3 ["A"]).1.map entryName
        = ["X", "B", "C", "D", "E"] := by
  decide

/-- C3 amended: for a non-overall label, a venue already in the cross-label
set (and not yet seen in this label, with slots still unfilled) is appended
exactly when the number of entries of the label's whole similarity list
whose names are outside the current cross-label set is smaller than the
label's total slot count (25 or 5) - counting non-unique entries, over the
whole list, and regardless of how many slots are already filled; otherwise
it is skipped. -/
theorem C3_amended (criterion : String) (num : Nat) (sims : List SimEntry)
    (st : SelState) (v : SimEntry)
    (h1 : criterion ≠ "overall") (h2 : entryName v ∈ st.allSel)
    (h3 : entryName v ∉ st.seen) (h4 : st.dm.length < num) :
    (diversityStep criterion num sims st v).dm = st.dm ++ [v] ↔
      (sims.filter (fun w => decide (entryName w ∉ st.allSel))).length < num := by
  unfold diversityStep
  rw [if_pos ⟨h3, h4⟩, if_pos ⟨h1, h2⟩]
  by_cases h5 : (sims.filter (fun w => decide (entryName w ∉ st.allSel))).length < num
  · rw [if_pos h5]
    exact ⟨fun _ => h5, fun _ => rfl⟩
  · rw [if_neg h5]
    constructor
    · intro he
      exfalso
      have hlen := congrArg List.length he
      simp at hlen
    · intro hc
      exact absurd hc h5

/-- C3 witness: the amended waiver characterization applied at the concrete
state of the counterexample run, where the source waives the exclusion and
appends the repeated venue A. -/
theorem C3_witness :
    (diversityStep "meeting_rooms" 5 simsC3 stC3 eA).dm = stC3.dm ++ [eA] :=
  (C3_amended "meeting_rooms" 5 simsC3 stC3 eA (by decide) (by decide) (by decide)
    (by decide)).mpr (by decide)

theorem ftmGo_none_of_fail (embOk : String → Bool) (sim : String → Nat → ℚ)
    (df : List Row) (hdf : df.any (fun r => r.hasEmbedding) = true) :
    ∀ (qs : List (String × String)) (allSel : List String),
      (∃ p ∈ qs, embOk p.2 = false) → ftmGo embOk sim df qs allSel = none := by
  intro qs
  induction qs with
  | nil =>
    intro allSel h
    simp at h
  | cons pq rest ih =>
    intro allSel h
    obtain ⟨c, q⟩ := pq
    by_cases hq : embOk q = false
    · simp only [ftmGo]
      rw [if_pos ⟨hq, hdf⟩]
    · obtain ⟨p, hp, hpf⟩ := h
      rcases List.mem_cons.mp hp with rfl | hp
      · exact absurd hpf hq
      · simp only [ftmGo]
        rw [if_neg (fun hcon => hq hcon.1)]
        rw [ih _ ⟨p, hp, hpf⟩]

/-- C1 counterexample: a one-venue catalog whose row has an embedding, and an
embedding provider that fails on every query: find_top_matches returns None
(the cosine_similarity call on a None query embedding raises and the
function-level handler returns None), rather than giving the failing label
an empty list and continuing. -/
theorem C1_counterexample :
    find_top_matches (fun _ => false) (fun _ _ => 0) dfOne edEmpty true = none := by
  decide

/-- C1 amended: if the embedding call fails for any query label and at least
one catalog venue has an embedding, the whole specialized find_top_matches
call fails (returns None), aborting every label; the per-label empty-list
outcome arises only when no venue has an embedding. -/
theorem C1_amended (embOk : String → Bool) (sim : String → Nat → ℚ) (df : List Row)
    (ed : EventDetails)
    (hdf : df.any (fun r => r.hasEmbedding) = true)
    (hfail : ∃ p ∈ create_search_queries ed, embOk p.2 = false) :
    find_top_matches embOk sim df ed true = none := by
  simp only [find_top_matches, if_true]
  exact ftmGo_none_of_fail embOk sim df hdf (create_search_queries ed) [] hfail

/-- C1 witness: the amended theorem applied to a concrete two-venue embedded
catalog with an everywhere-failing embedding provider. -/
theorem C1_witness :
    find_top_matches (fun _ => false) (fun _ _ => 0) dfTwo edEmpty true = none :=
  C1_amended (fun _ => false) (fun _ _ => 0) dfTwo edEmpty (by decide)
    ⟨("overall", overallQuery edEmpty), by simp [create_search_queries], rfl⟩

theorem dict_name_eq_key (vs : List MatchEntry) :
    ∀ p ∈ buildVenueDict vs, p.2.name = p.1 := by
  unfold buildVenueDict
  suffices h : ∀ (d : List (String × MatchEntry)), (∀ p ∈ d, p.2.name = p.1) →
      ∀ p ∈ vs.foldl dictInsert d, p.2.name = p.1 by
    exact h [] (by intro p hp; simp at hp)
  induction vs with
  | nil => intro d hd; simpa using hd
  | cons v rest ih =>
    intro d hd
    simp only [List.foldl_cons]
    refine ih (dictInsert d v) ?_
    unfold dictInsert
    split_ifs with h1
    · intro p hp
      rcases List.mem_map.mp hp with ⟨q, hq, rfl⟩
      by_cases h2 : q.1 = v.name ∧ q.2.score < v.score
      · rw [if_pos h2]
        exact h2.1.symm
      · rw [if_neg h2]
        exact hd q hq
    · intro p hp
      rcases List.mem_append.mp hp with hp | hp
      · exact hd p hp
      · rcases List.mem_singleton.mp hp with rfl
        rfl

theorem dict_key_mem (vs : List MatchEntry) {n : String} (hn : n ∈ vs.map MatchEntry.name) :
    ∃ p ∈ buildVenueDict vs, p.1 = n := by
  unfold buildVenueDict
  suffices h : ∀ (d : List (String × MatchEntry)),
      (n ∈ vs.map MatchEntry.name ∨ ∃ p ∈ d, p.1 = n) →
      ∃ p ∈ vs.foldl dictInsert d, p.1 = n by
    exact h [] (Or.inl hn)
  clear hn
  induction vs with
  | nil =>
    intro d hd
    rcases hd with hd | hd
    · simp at hd
    · simpa using hd
  | cons v rest ih =>
    intro d hd
    simp only [List.foldl_cons]
    have hkey : ∀ (q : String), (∃ p ∈ d, p.1 = q) ∨ q = v.name →
        ∃ p ∈ dictInsert d v, p.1 = q := by
      intro q hq
      unfold dictInsert
      split_ifs with h1
      · rcases hq with ⟨p, hp, rfl⟩ | rfl
        · by_cases h2 : p.1 = v.name ∧ p.2.score < v.score
          · refine ⟨(p.1, v), List.mem_map.mpr ⟨p, hp, by rw [if_pos h2]⟩, rfl⟩
          · refine ⟨p, List.mem_map.mpr ⟨p, hp, by rw [if_neg h2]⟩, rfl⟩
        · rcases List.any_eq_true.mp h1 with ⟨p, hp, hpe⟩
          have hpe' : p.1 = v.name := by simpa using hpe
          by_cases h2 : p.1 = v.name ∧ p.2.score < v.score
          · refine ⟨(p.1, v), List.mem_map.mpr ⟨p, hp, by rw [if_pos h2]⟩, hpe'⟩
          · refine ⟨p, List.mem_map.mpr ⟨p, hp, by rw [if_neg h2]⟩, hpe'⟩
      · rcases hq with ⟨p, hp, rfl⟩ | rfl
        · exact ⟨p, List.mem_append_left _ hp, rfl⟩
        · exact ⟨(v.name, v), List.mem_append_right _ (by simp), rfl⟩
    rcases hd with hd | hd
    · simp only [List.map_cons, List.mem_cons] at hd
      rcases hd with rfl | hd
      · exact ih _ (Or.inr (hkey v.name (Or.inr rfl)))
      · exact ih _ (Or.inl hd)
    · exact ih _ (Or.inr (hkey n (Or.inl hd)))

theorem lookupExact_isSome {n : String} :
    ∀ {d : List (String × MatchEntry)}, (∃ p ∈ d, p.1 = n) →
      ∃ w, lookupExact n d = some w := by
  intro d
  induction d with
  | nil => intro h; simp at h
  | cons p rest ih =>
    intro h
    by_cases hp : p.1 = n
    · exact ⟨p.2, by simp [lookupExact, hp]⟩
    · rcases h with ⟨q, hq, hqe⟩
      rcases List.mem_cons.mp hq with rfl | hq
      · exact absurd hqe hp
      · rcases ih ⟨q, hq, hqe⟩ with ⟨w, hw⟩
        exact ⟨w, by simp [lookupExact, hp, hw]⟩

theorem lookupExact_name {n : String} :
    ∀ {d : List (String × MatchEntry)} {w : MatchEntry},
      (∀ p ∈ d, p.2.name = p.1) → lookupExact n d = some w → w.name = n := by
  intro d
  induction d with
  | nil => intro w _ h; simp [lookupExact] at h
  | cons p rest ih =>
    intro w hd h
    by_cases hp : p.1 = n
    · simp only [lookupExact, if_pos hp] at h
      have hw := Option.some.inj h
      rw [← hw, hd p (by simp)]
      exact hp
    · simp only [lookupExact, if_neg hp] at h
      exact ih (fun q hq => hd q (List.mem_cons_of_mem p hq)) h

theorem resolveName_of_mem (vs : List MatchEntry) {n : String}
    (hn : n ∈ vs.map MatchEntry.name) :
    ∃ w, resolveName n (buildVenueDict vs) = some w ∧ w.name = n := by
  rcases lookupExact_isSome (dict_key_mem vs hn) with ⟨w, hw⟩
  refine ⟨w, ?_, lookupExact_name (dict_name_eq_key vs) hw⟩
  unfold resolveName
  rw [hw]

theorem filterMap_map_of_forall {α β : Type} (g : β → α) (f : α → Option β) :
    ∀ (ns : List α), (∀ n ∈ ns, ∃ w, f n = some w ∧ g w = n) →
      (ns.filterMap f).map g = ns := by
  intro ns
  induction ns with
  | nil => intro _; rfl
  | cons n rest ih =>
    intro h
    rcases h n (by simp) with ⟨w, hw, hg⟩
    simp only [List.filterMap_cons, hw, List.map_cons, hg]
    rw [ih (fun m hm => h m (List.mem_cons_of_mem n hm))]

theorem uFold_length_le (limit : Nat) (vs : List MatchEntry) :
    ∀ acc : List String, acc.length ≤ limit →
      (vs.foldl (fun acc v => if v.name ∉ acc ∧ acc.length < limit
          then acc ++ [v.name] else acc) acc).length ≤ limit := by
  induction vs with
  | nil => intro acc h; simpa using h
  | cons v rest ih =>
    intro acc h
    simp only [List.foldl_cons]
    by_cases hc : v.name ∉ acc ∧ acc.length < limit
    · rw [if_pos hc]
      refine ih _ ?_
      simp only [List.length_append, List.length_singleton]
      omega
    · rw [if_neg hc]
      exact ih _ h

theorem uFold_length_mono (limit : Nat) (vs : List MatchEntry) :
    ∀ acc : List String, acc.length ≤
      (vs.foldl (fun acc v => if v.name ∉ acc ∧ acc.length < limit
          then acc ++ [v.name] else acc) acc).length := by
  induction vs with
  | nil => intro acc; simp
  | cons v rest ih =>
    intro acc
    simp only [List.foldl_cons]
    by_cases hc : v.name ∉ acc ∧ acc.length < limit
    · rw [if_pos hc]
      refine le_trans ?_ (ih _)
      simp
    · rw [if_neg hc]
      exact ih _

theorem uFold_mem_mono (limit : Nat) (vs : List MatchEntry) {n : String} :
    ∀ acc : List String, n ∈ acc →
      n ∈ vs.foldl (fun acc v => if v.name ∉ acc ∧ acc.length < limit
          then acc ++ [v.name] else acc) acc := by
  induction vs with
  | nil => intro acc h; simpa using h
  | cons v rest ih =>
    intro acc h
    simp only [List.foldl_cons]
    by_cases hc : v.name ∉ acc ∧ acc.length < limit
    · rw [if_pos hc]
      exact ih _ (List.mem_append_left _ h)
    · rw [if_neg hc]
      exact ih _ h

theorem uFold_mem_src (limit : Nat) (vs : List MatchEntry) {n : String} :
    ∀ acc : List String,
      n ∈ vs.foldl (fun acc v => if v.name ∉ acc ∧ acc.length < limit
          then acc ++ [v.name] else acc) acc →
      n ∈ acc ∨ n ∈ vs.map MatchEntry.name := by
  induction vs with
  | nil => intro acc h; exact Or.inl (by simpa using h)
  | cons v rest ih =>
    intro acc h
    simp only [List.foldl_cons] at h
    by_cases hc : v.name ∉ acc ∧ acc.length < limit
    · rw [if_pos hc] at h
      rcases ih _ h with h | h
      · rcases List.mem_append.mp h with h | h
        · exact Or.inl h
        · rcases List.mem_singleton.mp h with rfl
          exact Or.inr (by simp)
      · exact Or.inr (by simp [h])
    · rw [if_neg hc] at h
      rcases ih _ h with h | h
      · exact Or.inl h
      · exact Or.inr (by simp [h])

theorem uFold_cover (limit : Nat) (vs : List MatchEntry) :
    ∀ acc : List String,
      (vs.foldl (fun acc v => if v.name ∉ acc ∧ acc.length < limit
          then acc ++ [v.name] else acc) acc).length < limit →
      ∀ v ∈ vs, v.name ∈ vs.foldl (fun acc v => if v.name ∉ acc ∧ acc.length < limit
          then acc ++ [v.name] else acc) acc := by
  induction vs with
  | nil => intro acc _ v hv; simp at hv
  | cons w rest ih =>
    intro acc hlen v hv
    simp only [List.foldl_cons] at hlen ⊢
    rcases List.mem_cons.mp hv with rfl | hv
    · by_cases hc : v.name ∉ acc ∧ acc.length < limit
      · rw [if_pos hc] at hlen ⊢
        exact uFold_mem_mono limit rest _ (List.mem_append_right _ (by simp))
      · rw [if_neg hc] at hlen ⊢
        rcases not_and_or.mp hc with hc | hc
        · rw [not_not] at hc
          exact uFold_mem_mono limit rest _ hc
        · exfalso
          have := uFold_length_mono limit rest acc
          omega
    · exact ih _ hlen v hv

theorem topUp_length_le :
    ∀ (vs : List MatchEntry) (acc : List MatchEntry) (seen : List String),
      acc.length ≤ 15 → (topUp vs acc seen).length ≤ 15 := by
  intro vs
  induction vs with
  | nil => intro acc seen h; simpa [topUp] using h
  | cons v rest ih =>
    intro acc seen h
    simp only [topUp]
    by_cases hc : v.name ∉ seen ∧ acc.length < 15
    · rw [if_pos hc]
      refine ih _ _ ?_
      simp only [List.length_append, List.length_singleton]
      omega
    · rw [if_neg hc]
      exact ih _ _ h

theorem topUp_noop :
    ∀ (vs : List MatchEntry) (acc : List MatchEntry) (seen : List String),
      (∀ v ∈ vs, v.name ∈ seen) → topUp vs acc seen = acc := by
  intro vs
  induction vs with
  | nil => intro acc seen _; rfl
  | cons v rest ih =>
    intro acc seen h
    simp only [topUp]
    rw [if_neg (by
      intro hcon
      exact hcon.1 (h v (by simp)))]
    exact ih _ _ (fun w hw => h w (List.mem_cons_of_mem v hw))

theorem card_insert_eq_card_erase_add_one {α : Type} [DecidableEq α] (a : α) (t : Finset α) :
    (insert a t).card = (t.erase a).card + 1 := by
  by_cases h : a ∈ t
  · rw [Finset.insert_eq_self.mpr h, Finset.card_erase_of_mem h]
    have := Finset.card_pos.mpr ⟨a, h⟩
    omega
  · rw [Finset.card_insert_of_not_mem h, Finset.erase_eq_of_not_mem h]

theorem topUp_reaches :
    ∀ (vs : List MatchEntry) (acc : List MatchEntry) (seen : List String),
      acc.length ≤ 15 →
      15 ≤ acc.length + ((vs.map MatchEntry.name).toFinset \ seen.toFinset).card →
      (topUp vs acc seen).length = 15 := by
  intro vs
  induction vs with
  | nil =>
    intro acc seen h1 h2
    simp only [List.map_nil, List.toFinset_nil, Finset.empty_sdiff, Finset.card_empty] at h2
    simp only [topUp]
    omega
  | cons v rest ih =>
    intro acc seen h1 h2
    simp only [topUp]
    by_cases hc : v.name ∉ seen ∧ acc.length < 15
    · rw [if_pos hc]
      refine ih _ _ (by simp only [List.length_append, List.length_singleton]; omega) ?_
      have hvn : v.name ∉ seen.toFinset := by
        simpa [List.mem_toFinset] using hc.1
      have hkey : ((v :: rest).map MatchEntry.name).toFinset \ seen.toFinset
          = insert v.name ((rest.map MatchEntry.name).toFinset \ seen.toFinset) := by
        simp only [List.map_cons, List.toFinset_cons]
        exact Finset.insert_sdiff_of_not_mem _ hvn
      have hins : (insert v.name ((rest.map MatchEntry.name).toFinset \ seen.toFinset)).card
          = (((rest.map MatchEntry.name).toFinset \ seen.toFinset).erase v.name).card + 1 :=
        card_insert_eq_card_erase_add_one _ _
      have hswap : (rest.map MatchEntry.name).toFinset \ (v.name :: seen).toFinset
          = ((rest.map MatchEntry.name).toFinset \ seen.toFinset).erase v.name := by
        simp only [List.toFinset_cons]
        exact Finset.sdiff_insert _ _ _
      rw [hkey, hins] at h2
      rw [hswap]
      simp only [List.length_append, List.length_singleton]
      omega
    · rw [if_neg hc]
      rcases not_and_or.mp hc with hc | hc
      · rw [not_not] at hc
        refine ih _ _ h1 ?_
        have hvn : v.name ∈ seen.toFinset := List.mem_toFinset.mpr hc
        have hkey : ((v :: rest).map MatchEntry.name).toFinset \ seen.toFinset
            = (rest.map MatchEntry.name).toFinset \ seen.toFinset := by
          simp only [List.map_cons, List.toFinset_cons]
          exact Finset.insert_sdiff_of_mem _ hvn
        rw [hkey] at h2
        exact h2
      · refine ih _ _ h1 ?_
        omega

theorem uniqueNames_length_le (limit : Nat) (vs : List MatchEntry) :
    (uniqueNamesUpTo limit vs).length ≤ limit :=
  uFold_length_le limit vs [] (Nat.zero_le _)

theorem uniqueNames_src (limit : Nat) (vs : List MatchEntry) {n : String}
    (h : n ∈ uniqueNamesUpTo limit vs) : n ∈ vs.map MatchEntry.name := by
  rcases uFold_mem_src limit vs [] h with h | h
  · simp at h
  · exact h

theorem uniqueNames_cover (limit : Nat) (vs : List MatchEntry)
    (h : (uniqueNamesUpTo limit vs).length < limit) :
    ∀ v ∈ vs, v.name ∈ uniqueNamesUpTo limit vs :=
  uFold_cover limit vs [] h

theorem stage1_len15 (pool : List MatchEntry) (ns : List String)
    (hpool : 15 ≤ (pool.map MatchEntry.name).toFinset.card) :
    (if ((ns.take 15).filterMap (fun n => resolveName n (buildVenueDict pool))).length < 15
     then topUp (sortDescBy MatchEntry.score pool)
            ((ns.take 15).filterMap (fun n => resolveName n (buildVenueDict pool)))
            (((ns.take 15).filterMap (fun n => resolveName n (buildVenueDict pool))).map
              MatchEntry.name)
     else (ns.take 15).filterMap (fun n => resolveName n (buildVenueDict pool))).length
      = 15 := by
  set top0 := (ns.take 15).filterMap (fun n => resolveName n (buildVenueDict pool)) with htop0
  have h0 : top0.length ≤ 15 :=
    le_trans (List.length_filterMap_le _ _) (by rw [List.length_take]; exact min_le_left _ _)
  split_ifs with hlt
  · refine topUp_reaches _ top0 _ h0 ?_
    have hperm : ((sortDescBy MatchEntry.score pool).map MatchEntry.name).toFinset
        = (pool.map MatchEntry.name).toFinset :=
      List.toFinset_eq_of_perm _ _ ((perm_sortDescBy MatchEntry.score pool).map MatchEntry.name)
    rw [hperm]
    have hseen : ((top0.map MatchEntry.name).toFinset).card ≤ top0.length :=
      le_trans (List.toFinset_card_le _) (by simp)
    have hsd := Finset.card_le_card_sdiff_add_card
      (s := (pool.map MatchEntry.name).toFinset) (t := (top0.map MatchEntry.name).toFinset)
    omega
  · omega

/-- C10: for every input pool and every provider response, the venue list of
get_top_restaurants holds at most 15 entries: returned names beyond the
first 15 are never resolved and the score-based top-up stops at 15. -/
theorem C10_at_most_15 (top_matches : List (String × List MatchEntry)) (ed : EventDetails)
    (resp : Option (List String × String)) :
    (get_top_restaurants top_matches ed resp).top_restaurants.length ≤ 15 := by
  have h0 : ∀ ns : List String,
      ((ns.take 15).filterMap
        (fun n => resolveName n (buildVenueDict (allVenues top_matches)))).length ≤ 15 := by
    intro ns
    exact le_trans (List.length_filterMap_le _ _)
      (by rw [List.length_take]; exact min_le_left _ _)
  rcases resp with _ | pr <;>
    (simp only [get_top_restaurants]
     split_ifs with hlt
     · exact topUp_length_le _ _ _ (h0 _)
     · exact h0 _)

/-- C4: get_top_restaurants is total (the model is a function; the source
wraps everything in a handler), and for every pool with at least 15 unique
venue names it returns exactly 15 entries, whether the provider call
succeeds, fails, or returns a short or malformed (defaulted) response. -/
theorem C4_shortlist_size (top_matches : List (String × List MatchEntry)) (ed : EventDetails)
    (resp : Option (List String × String))
    (hpool : 15 ≤ ((allVenues top_matches).map MatchEntry.name).toFinset.card) :
    (get_top_restaurants top_matches ed resp).top_restaurants.length = 15 := by
  rcases resp with _ | pr <;>
    (simp only [get_top_restaurants]
     exact stage1_len15 _ _ hpool)

/-- C4 witness: a pool of 15 distinct names with a failing provider gives
exactly 15 venues. -/
theorem C4_witness : (get_top_restaurants tm15 edEmpty none).top_restaurants.length = 15 :=
  C4_shortlist_size tm15 edEmpty none (by decide)

/-- C6: when the Stage 1 provider call (or its parse) fails, the returned
venues are exactly the first 15 unique names of the pool sorted by score
descending - the stable descending sort keeps ties in first-seen order - and
the reasoning is the fixed algorithmic-fallback string. -/
theorem C6_fallback_equivalence (top_matches : List (String × List MatchEntry))
    (ed : EventDetails) :
    (get_top_restaurants top_matches ed none).top_restaurants.map MatchEntry.name
        = uniqueNamesUpTo 15 (sortDescBy MatchEntry.score (allVenues top_matches)) ∧
    (get_top_restaurants top_matches ed none).selection_reasoning
        = "Selected based on similarity scores (algorithmic fallback)." := by
  constructor
  · simp only [get_top_restaurants]
    set pool := allVenues top_matches with hpool
    set sorted := sortDescBy MatchEntry.score pool with hsorted
    set names := uniqueNamesUpTo 15 sorted with hnames
    have hlen : names.length ≤ 15 := uniqueNames_length_le 15 sorted
    have htake : names.take 15 = names := List.take_of_length_le hlen
    rw [htake]
    have hres : (names.filterMap (fun n => resolveName n (buildVenueDict pool))).map
        MatchEntry.name = names := by
      refine filterMap_map_of_forall MatchEntry.name _ names ?_
      intro n hn
      have hsrc : n ∈ sorted.map MatchEntry.name := uniqueNames_src 15 sorted hn
      have hpoolmem : n ∈ pool.map MatchEntry.name :=
        (((perm_sortDescBy MatchEntry.score pool).map MatchEntry.name).mem_iff).mp hsrc
      exact resolveName_of_mem pool hpoolmem
    set top0 := names.filterMap (fun n => resolveName n (buildVenueDict pool)) with htop0
    have hlen0 : top0.length = names.length := by
      have := congrArg List.length hres
      simpa using this
    split_ifs with hlt
    · have hcover : ∀ v ∈ sorted, v.name ∈ names :=
        uniqueNames_cover 15 sorted (by rw [← hnames]; omega)
    -- every sorted venue name is already seen, so the top-up is a no-op
      rw [topUp_noop sorted top0 (top0.map MatchEntry.name)
        (fun v hv => by rw [hres]; exact hcover v hv)]
      exact hres
    · exact hres
  · simp only [get_top_restaurants]

theorem ftmGo_empty_df (embOk : String → Bool) (sim : String → Nat → ℚ) :
    ∀ (qs : List (String × String)) (allSel : List String),
      ftmGo embOk sim [] qs allSel = some (qs.map (fun p => (p.1, []))) := by
  intro qs
  induction qs with
  | nil => intro allSel; rfl
  | cons pq rest ih =>
    intro allSel
    obtain ⟨c, q⟩ := pq
    have hpc : processCriterion c (if c = "overall" then 25 else 5)
        (sortDescBy entryScore (buildSimilarities (sim q) [])) allSel = ([], allSel) := by
      simp only [processCriterion]
      split_ifs <;> rfl
    simp only [ftmGo]
    rw [if_neg (by simp)]
    rw [hpc]
    simp only [ih]
    rfl

theorem resolveName_empty_dict (n : String) : resolveName n (buildVenueDict []) = none := rfl

theorem get_top_empty_pool (top_matches : List (String × List MatchEntry)) (ed : EventDetails)
    (resp : Option (List String × String)) (hempty : allVenues top_matches = []) :
    (get_top_restaurants top_matches ed resp).top_restaurants = [] := by
  have hres : ∀ ns : List String,
      ns.filterMap (fun n => resolveName n (buildVenueDict [])) = [] := by
    intro ns
    induction ns with
    | nil => rfl
    | cons n rest ih => simp [List.filterMap_cons, resolveName_empty_dict, ih]
  rcases resp with _ | pr <;>
    (simp only [get_top_restaurants, hempty]
     rw [show sortDescBy MatchEntry.score [] = [] from rfl]
     simp only [hres]
     rfl)

/-- C5 counterexample: a successfully loaded but empty catalog (0 venues)
with working providers: find_best_restaurants returns an empty SUCCESS
result (no error key, empty venue list), not an explicit error result. -/
theorem C5_counterexample :
    find_best_restaurants (some []) (fun _ => true) (fun _ _ => 0)
        (some ([], "model reasoning")) edEmpty true
      = PipelineResult.success
          { top_restaurants := [], selection_reasoning := "model reasoning" } := by
  decide

/-- C5 amended: find_best_restaurants surfaces hard failures only as
explicit error results - in particular a catalog LOAD failure yields the
fixed error dict - but a successfully loaded empty catalog (0 venues) flows
through the pipeline and yields a success result with an empty venue list,
not an error result. -/
theorem C5_amended (embOk : String → Bool) (sim : String → Nat → ℚ)
    (resp : Option (List String × String)) (ed : EventDetails) (b : Bool) :
    find_best_restaurants none embOk sim resp ed b
        = PipelineResult.failure "Failed to load restaurant data." ∧
    ∃ r, find_best_restaurants (some []) embOk sim resp ed b = PipelineResult.success r ∧
      r.top_restaurants = [] := by
  refine ⟨rfl, ?_⟩
  cases b
  · -- non-specialized branch: overall-only ranking of an empty catalog
    have hftm : find_top_matches embOk sim [] ed false = some [("overall", [])] := by
      simp only [find_top_matches, Bool.false_eq_true, if_false]
      rw [if_neg (by simp)]
      rfl
    refine ⟨get_top_restaurants [("overall", [])] ed resp, ?_, ?_⟩
    · simp only [find_best_restaurants, hftm]
    · exact get_top_empty_pool _ ed resp (by simp [allVenues])
  · -- specialized branch: every label gets an empty list
    have hftm : find_top_matches embOk sim [] ed true
        = some ((create_search_queries ed).map (fun p => (p.1, []))) := by
      simp only [find_top_matches, if_true]
      exact ftmGo_empty_df embOk sim (create_search_queries ed) []
    refine ⟨get_top_restaurants ((create_search_queries ed).map (fun p => (p.1, []))) ed resp,
      ?_, ?_⟩
    · simp only [find_best_restaurants, hftm]
    · refine get_top_empty_pool _ ed resp ?_
      simp [allVenues, List.map_map, Function.comp]
